import Mathlib

/-!
Verification of the Wiegand line codec of RSID_Face_Guard.

Shallow embedding of `src/card_writer_api.py` (`_WiegandTx` and its module-level
API) and `src/card_api/card_reader_api.py` (`_WiegandReader` and its module-level
API).

Modelling conventions:
* Python timestamps (`time.monotonic()`, float seconds) and durations are modelled
  as exact integers in abstract time units; the code only subtracts and compares
  them, so any linearly ordered abelian group is faithful.
* GPIO side effects (`lgpio.*` calls, thread starts, callback registration) are
  recorded in explicit effect lists; a GPIO handle is modelled as `Option Nat`
  mirroring the `self._h = None` / handle pattern.
* The process-wide singleton `_instance` of each module is modelled as an
  `Option` state threaded explicitly through the module-level functions.
* Fallible module functions (`raise RuntimeError`) return `Except String`.
* The binary format string `f"{m:032b}"` (respectively `:030b`) is modelled by
  `natBits 32 m` (`natBits 30 m`), the most-significant-bit-first list of binary
  digits, each character `'1'` modelled as `true`; the characterization
  `natBits_getD` below proves the digits agree with `Nat.testBit`.
-/

/-- Most-significant-bit-first list of the `w` low binary digits of `n`.
Models the Python format string `f"{n:0wb}"` for `n < 2 ^ w` (each char
compared against `'1'`, giving a `Bool` per position). -/
def natBits : Nat → Nat → List Bool
  | 0, _ => []
  | w + 1, n => natBits w (n / 2) ++ [decide (n % 2 = 1)]

/-- Numeric value of one received bit (`'1'` ↦ 1, `'0'` ↦ 0); the reader's
accumulator stores Python ints 0/1. -/
def bitVal (b : Bool) : Nat := if b then 1 else 0

/-! ## Writer: `card_writer_api.py` -/

/-- One primitive action performed by the transmitter: a GPIO level write
(`lgpio.gpio_write`) or a timed delay (`time.sleep`, argument in µs). -/
inductive TxAction where
  | write (pin : Nat) (val : Nat)
  | sleep (us : Int)
deriving Repr, DecidableEq

/-- GPIO resource effects of the transmitter lifecycle. -/
inductive TxEff where
  | gpiochipOpen (chip : Nat)
  | claimOutput (pin : Nat) (level : Nat)
  | gpiochipClose (h : Nat)
deriving Repr, DecidableEq

/-- State of `_WiegandTx`: configuration attributes set in `__init__` plus the
handle `_h` (`None` until `start()`). -/
structure WiegandTx where
  chip : Nat
  d0 : Nat
  d1 : Nat
  t_low_us : Int
  t_space_us : Int
  active_high : Bool
  h : Option Nat
deriving Repr, DecidableEq

/-- `_WiegandTx.__init__`: stores the pins, clamps the timings
(`max(20, int(t_low_us))`, `max(200, int(t_space_us))`), coerces the polarity
flag, and leaves the handle `None`. -/
def WiegandTx.init (chip d0_pin d1_pin : Nat) (t_low_us t_space_us : Int)
    (active_high : Bool) : WiegandTx :=
  { chip := chip
    d0 := d0_pin
    d1 := d1_pin
    t_low_us := max 20 t_low_us
    t_space_us := max 200 t_space_us
    active_high := active_high
    h := none }

/-- Electrical level for `_drive(pin, on)`: `1 if (on == self.active_high) else 0`
(the parameter `on` is renamed `on'`, `on` being reserved). -/
def driveVal (active_high on' : Bool) : Nat := if on' = active_high then 1 else 0

/-- Electrical level for `_idle(pin)`: `0 if self.active_high else 1`. -/
def idleVal (active_high : Bool) : Nat := if active_high then 0 else 1

/-- `_WiegandTx._pulse_bit`: choose D1 for a `'1'` bit and D0 for a `'0'` bit,
drive it active, hold `t_low_us`, return it to idle, hold `t_space_us`. -/
def WiegandTx.pulse_bit (w : WiegandTx) (bit1 : Bool) : List TxAction :=
  [TxAction.write (if bit1 then w.d1 else w.d0) (driveVal w.active_high true),
   TxAction.sleep w.t_low_us,
   TxAction.write (if bit1 then w.d1 else w.d0) (idleVal w.active_high),
   TxAction.sleep w.t_space_us]

/-- `_WiegandTx.send_bits_msb_first`: pulse each bit of the string in order. -/
def WiegandTx.send_bits_msb_first (w : WiegandTx) (bits : List Bool) : List TxAction :=
  (bits.map w.pulse_bit).flatten

/-- Bit string built by `send_w32`: `f"{value & 0xFFFFFFFF:032b}"`.  Python's
`value & 0xFFFFFFFF` on an arbitrary (possibly negative) int equals
`value mod 2^32`, written here with an explicit `% 2 ^ 32`. -/
def send_w32_bits (value : Int) : List Bool :=
  natBits 32 (value % 2 ^ 32).toNat

/-- `_WiegandTx.send_w32`: send exactly 32 data bits, MSB first, no parity. -/
def WiegandTx.send_w32 (w : WiegandTx) (value : Int) : List TxAction :=
  w.send_bits_msb_first (send_w32_bits value)

/-- Bit string built by `send_w32_parity_1_30_1`:
`data30 = f"{value & ((1<<30)-1):030b}"`, `first15, last15 = data30[:15], data30[15:]`,
`p1 = '0' if (first15.count('1') % 2) else '1'`,
`p2 = '1' if (last15.count('1') % 2) else '0'`, `frame = p1 + data30 + p2`. -/
def send_w32_parity_bits (value : Int) : List Bool :=
  let data30 := natBits 30 (value % 2 ^ 30).toNat
  let first15 := data30.take 15
  let last15 := data30.drop 15
  let p1 := if first15.count true % 2 = 1 then false else true
  let p2 := if last15.count true % 2 = 1 then true else false
  (p1 :: data30) ++ [p2]

/-- `_WiegandTx.send_w32_parity_1_30_1`: transmit the 1+30+1 frame via the same
bit-by-bit pulse procedure. -/
def WiegandTx.send_w32_parity_1_30_1 (w : WiegandTx) (value : Int) : List TxAction :=
  w.send_bits_msb_first (send_w32_parity_bits value)

/-- `_WiegandTx.start`: no-op if the handle is already set; otherwise open the
chip and claim both pins as outputs at the idle level. -/
def WiegandTx.start (w : WiegandTx) : WiegandTx × List TxEff :=
  match w.h with
  | some _ => (w, [])
  | none =>
      ({ w with h := some w.chip },
       [TxEff.gpiochipOpen w.chip,
        TxEff.claimOutput w.d0 (if w.active_high then 0 else 1),
        TxEff.claimOutput w.d1 (if w.active_high then 0 else 1)])

/-- `_WiegandTx.close`: close the chip if the handle is set, then clear it. -/
def WiegandTx.close (w : WiegandTx) : WiegandTx × List TxEff :=
  match w.h with
  | some hh => ({ w with h := none }, [TxEff.gpiochipClose hh])
  | none => (w, [])

/-- Module-level `initialize_wiegand_tx`: create the singleton if absent
(with the supplied parameters), then `start()` it. -/
def initialize_wiegand_tx (chip d0_pin d1_pin : Nat) (t_low_us t_space_us : Int)
    (active_high : Bool) (inst : Option WiegandTx) : Option WiegandTx × List TxEff :=
  let w := inst.getD (WiegandTx.init chip d0_pin d1_pin t_low_us t_space_us active_high)
  let p := w.start
  (some p.1, p.2)

/-- Module-level `send_w32`: raise if not initialized, else transmit. -/
def send_w32 (inst : Option WiegandTx) (value : Int) : Except String (List TxAction) :=
  match inst with
  | none => Except.error "initialize_wiegand_tx() first."
  | some w => Except.ok (w.send_w32 value)

/-- Module-level `send_w32_parity_1_30_1`: raise if not initialized, else transmit. -/
def send_w32_parity_1_30_1 (inst : Option WiegandTx) (value : Int) :
    Except String (List TxAction) :=
  match inst with
  | none => Except.error "initialize_wiegand_tx() first."
  | some w => Except.ok (w.send_w32_parity_1_30_1 value)

/-- Module-level `close_wiegand_tx`: close and drop the singleton if present. -/
def close_wiegand_tx (inst : Option WiegandTx) : Option WiegandTx × List TxEff :=
  match inst with
  | none => (none, [])
  | some w => (none, w.close.2)

/-! ## Reader: `card_api/card_reader_api.py` -/

/-- GPIO / thread effects of the reader lifecycle. -/
inductive RxEff where
  | gpiochipOpen (chip : Nat)
  | claimAlert (pin : Nat)
  | registerCallback (pin : Nat)
  | threadStart
  | stopSet
  | cancelCallback (pin : Nat)
  | gpiochipClose (h : Nat)
deriving Repr, DecidableEq

/-- State of `_WiegandReader`: configuration attributes, the GPIO handle `_h`,
the two callback registrations `_cb0`/`_cb1` (modelled as flags), and the
shared accumulator `_bits`/`_last` plus the hand-off queue `_frames`
(FIFO, `put` appends at the tail, `get` removes the head). -/
structure WiegandReader where
  chip_index : Nat
  d0 : Nat
  d1 : Nat
  gap : Int
  h : Option Nat
  cb0 : Bool
  cb1 : Bool
  bits : List Nat
  last : Int
  frames : List Nat
deriving Repr, DecidableEq

/-- `_WiegandReader.__init__`: stores the parameters unchanged (the gap is not
validated or clamped), empty accumulator, `_last = time.monotonic()` — the
construction time `t0` — and an empty frame queue. -/
def WiegandReader.init (chip d0_pin d1_pin : Nat) (gap t0 : Int) : WiegandReader :=
  { chip_index := chip
    d0 := d0_pin
    d1 := d1_pin
    gap := gap
    h := none
    cb0 := false
    cb1 := false
    bits := []
    last := t0
    frames := [] }

/-- `_WiegandReader._on_edge`: on a falling edge at time `now`, append 0 for the
D0 rail and 1 for the D1 rail and record the last-activity time; a transition
on neither configured rail is ignored. -/
def WiegandReader.on_edge (r : WiegandReader) (gpio : Nat) (now : Int) : WiegandReader :=
  if gpio = r.d0 then { r with bits := r.bits ++ [0], last := now }
  else if gpio = r.d1 then { r with bits := r.bits ++ [1], last := now }
  else r

/-- The MSB-first integer value of an accumulated bit list:
`value = 0; for b in bits: value = (value << 1) | b`. -/
def frameValue (bits : List Nat) : Nat :=
  bits.foldl (fun value b => (value <<< 1) ||| b) 0

/-- One poll iteration of `_WiegandReader._frame_watcher` at time `now`: if the
accumulator is non-empty and the silence exceeds the gap, finalize — compute the
value, record the bit count, clear the accumulator (the last-activity timestamp
is left untouched by the source), and enqueue the value only when the count is
exactly 32. Otherwise do nothing. -/
def WiegandReader.frame_watcher_step (r : WiegandReader) (now : Int) : WiegandReader :=
  if r.bits ≠ [] ∧ now - r.last > r.gap then
    let value := frameValue r.bits
    let n := r.bits.length
    { r with bits := [], frames := if n = 32 then r.frames ++ [value] else r.frames }
  else r

/-- `_WiegandReader.start`: no-op if the handle is already set; otherwise open
the chip, claim both pins as falling-edge alerts with pull-ups, register the two
callbacks and start the watcher thread. -/
def WiegandReader.start (r : WiegandReader) : WiegandReader × List RxEff :=
  match r.h with
  | some _ => (r, [])
  | none =>
      ({ r with h := some r.chip_index, cb0 := true, cb1 := true },
       [RxEff.gpiochipOpen r.chip_index,
        RxEff.claimAlert r.d0, RxEff.claimAlert r.d1,
        RxEff.registerCallback r.d0, RxEff.registerCallback r.d1,
        RxEff.threadStart])

/-- `_WiegandReader.get_32bit`: `self._frames.get(timeout=timeout)` returns the
next queued frame; when the timeout elapses with the queue still empty the
`queue.Empty` exception is caught and `None` is returned.  The blocking wait is
abstracted to the queue contents at return time; the timeout argument is kept
for the signature. -/
def WiegandReader.get_32bit (r : WiegandReader) (timeout : Option Int) :
    Option Nat × WiegandReader :=
  match timeout, r.frames with
  | _, [] => (none, r)
  | _, f :: rest => (some f, { r with frames := rest })

/-- `_WiegandReader.stop`: set the stop event, cancel whichever callbacks were
registered, and close the chip if the handle is set. -/
def WiegandReader.stop (r : WiegandReader) : WiegandReader × List RxEff :=
  ({ r with h := none },
   [RxEff.stopSet]
     ++ (if r.cb0 then [RxEff.cancelCallback r.d0] else [])
     ++ (if r.cb1 then [RxEff.cancelCallback r.d1] else [])
     ++ (match r.h with
         | some hh => [RxEff.gpiochipClose hh]
         | none => []))

/-- Module-level `initialize_card_reader`: create the singleton if absent
(with the supplied parameters; `t0` is the construction time), then `start()` it. -/
def initialize_card_reader (chip d0_pin d1_pin : Nat) (gap t0 : Int)
    (inst : Option WiegandReader) : Option WiegandReader × List RxEff :=
  let r := inst.getD (WiegandReader.init chip d0_pin d1_pin gap t0)
  let p := r.start
  (some p.1, p.2)

/-- Module-level `get_card_id`: raise if not initialized, else return the next
32-bit value or `None` on timeout. -/
def get_card_id (inst : Option WiegandReader) (timeout : Option Int) :
    Except String (Option Nat × WiegandReader) :=
  match inst with
  | none => Except.error "Card reader not initialized. Call initialize_card_reader() first."
  | some r => Except.ok (r.get_32bit timeout)

/-- Module-level `disconnect_card_reader`: stop and drop the singleton if present. -/
def disconnect_card_reader (inst : Option WiegandReader) :
    Option WiegandReader × List RxEff :=
  match inst with
  | none => (none, [])
  | some r => (none, r.stop.2)

/-! ## Event-level simulation of the receive path

The reader is driven by two asynchronous activities: edge callbacks
(`_on_edge`) and watcher polls (`_frame_watcher` iterations).  A run is a
time-ordered list of these events applied to the reader state. -/

/-- One asynchronous reader event: a falling edge on a GPIO at a time, or one
watcher poll iteration at a time. -/
inductive RxEvent where
  | edge (gpio : Nat) (t : Int)
  | poll (t : Int)
deriving Repr, DecidableEq

/-- Apply a time-ordered list of events to the reader state. -/
def runEvents (r : WiegandReader) : List RxEvent → WiegandReader
  | [] => r
  | RxEvent.edge g t :: rest => runEvents (r.on_edge g t) rest
  | RxEvent.poll t :: rest => runEvents (r.frame_watcher_step t) rest

/-- The event trace of transmitting a bit list starting at time `t` with
inter-bit gap `d`: each bit produces a falling edge on D1 (`'1'`) or D0 (`'0'`),
and the watcher polls once per bit period (just before each edge). -/
def bitEvents (d0_pin d1_pin : Nat) : List Bool → Int → Int → List RxEvent
  | [], _, _ => []
  | b :: rest, t, d =>
      RxEvent.poll t :: RxEvent.edge (if b then d1_pin else d0_pin) t
        :: bitEvents d0_pin d1_pin rest (t + d) d

/-! ## Helper lemmas -/

lemma natBits_length (w : Nat) : ∀ n, (natBits w n).length = w := by
  induction w with
  | zero => intro n; rfl
  | succ w ih => intro n; simp [natBits, ih]

lemma shiftLeft_one_lor (v b : Nat) (hb : b ≤ 1) : (v <<< 1) ||| b = 2 * v + b := by
  interval_cases b
  · simp [Nat.shiftLeft_eq]; ring
  · apply Nat.eq_of_testBit_eq
    intro i
    cases i with
    | zero =>
        have h1 : (v <<< 1).testBit 0 = false := by
          simp [Nat.testBit_zero, Nat.shiftLeft_eq]
        have h2 : (2 * v + 1) % 2 = 1 := by omega
        simp [Nat.testBit_lor, Nat.testBit_zero, h1, h2]
    | succ i =>
        rw [Nat.testBit_lor]
        have hd1 : v <<< 1 / 2 = v := by simp [Nat.shiftLeft_eq]
        have hd2 : (2 * v + 1) / 2 = v := by omega
        simp [Nat.testBit_succ, hd1, hd2, Nat.zero_testBit]

lemma frameValue_concat (l : List Nat) (x : Nat) :
    frameValue (l ++ [x]) = (frameValue l <<< 1) ||| x := by
  simp [frameValue, List.foldl_append]

lemma bitVal_le_one (b : Bool) : bitVal b ≤ 1 := by cases b <;> simp [bitVal]

lemma frameValue_natBits (w : Nat) : ∀ n, n < 2 ^ w →
    frameValue ((natBits w n).map bitVal) = n := by
  induction w with
  | zero =>
      intro n h
      have : n = 0 := by omega
      simp [this, natBits, frameValue]
  | succ w ih =>
      intro n h
      have hdiv : n / 2 < 2 ^ w := by
        rw [Nat.div_lt_iff_lt_mul (by norm_num)]
        have : 2 ^ (w + 1) = 2 ^ w * 2 := pow_succ 2 w
        omega
      rw [natBits, List.map_append, List.map_singleton, frameValue_concat,
        ih _ hdiv, shiftLeft_one_lor _ _ (bitVal_le_one _)]
      rcases Nat.mod_two_eq_zero_or_one n with h2 | h2 <;> simp [bitVal, h2] <;> omega

lemma foldl_frame_lt (l : List Nat) : ∀ (a k : Nat), (∀ b ∈ l, b ≤ 1) → a < 2 ^ k →
    List.foldl (fun value b => (value <<< 1) ||| b) a l < 2 ^ (k + l.length) := by
  induction l with
  | nil => intro a k _ h; simpa using h
  | cons b rest ih =>
      intro a k hb ha
      have hb1 : b ≤ 1 := hb b (by simp)
      have hstep : (a <<< 1) ||| b < 2 ^ (k + 1) := by
        rw [shiftLeft_one_lor a b hb1, pow_succ]; omega
      have := ih ((a <<< 1) ||| b) (k + 1) (fun x hx => hb x (by simp [hx])) hstep
      simpa [List.foldl_cons, show k + 1 + rest.length = k + (rest.length + 1) by omega]
        using this

lemma frameValue_lt (l : List Nat) (h : ∀ b ∈ l, b ≤ 1) :
    frameValue l < 2 ^ l.length := by
  simpa using foldl_frame_lt l 0 0 h (by norm_num)

lemma natBits_getD (w : Nat) : ∀ n i, i < w →
    (natBits w n).getD i false = n.testBit (w - 1 - i) := by
  induction w with
  | zero => intro n i h; omega
  | succ w ih =>
      intro n i h
      rw [natBits]
      rcases Nat.lt_or_ge i w with hi | hi
      · have hlen : i < (natBits w (n / 2)).length := by rw [natBits_length]; exact hi
        have hstep : (natBits w (n / 2) ++ [decide (n % 2 = 1)]).getD i false
            = (natBits w (n / 2)).getD i false := by
          simp [List.getD, List.getElem?_append, hlen]
        rw [hstep, ih _ _ hi, ← Nat.testBit_succ]
        congr 1
        omega
      · have hi' : i = w := by omega
        rw [hi']
        have hlen : (natBits w (n / 2)).length = w := natBits_length w _
        have hstep : ∀ (l : List Bool) (x : Bool), l.length = w →
            (l ++ [x]).getD w false = x := by
          intro l x hl
          rw [← hl]
          simp [List.getD, List.getElem?_concat_length]
        rw [hstep _ _ hlen]
        have h0 : w + 1 - 1 - w = 0 := by omega
        rw [h0]
        simp [Nat.testBit_zero]

lemma send_w32_bits_natCast (v : Nat) (hv : v < 2 ^ 32) :
    send_w32_bits (v : Int) = natBits 32 v := by
  unfold send_w32_bits
  congr 1
  rw [Int.emod_eq_of_lt (by positivity) (by exact_mod_cast hv)]
  simp

lemma runEvents_append (r : WiegandReader) (l1 l2 : List RxEvent) :
    runEvents r (l1 ++ l2) = runEvents (runEvents r l1) l2 := by
  induction l1 generalizing r with
  | nil => rfl
  | cons e rest ih => cases e <;> simp [runEvents, ih]

lemma frame_watcher_step_of_quiet (r : WiegandReader) (t : Int)
    (hq : r.bits ≠ [] → t - r.last ≤ r.gap) :
    r.frame_watcher_step t = r := by
  rw [WiegandReader.frame_watcher_step, if_neg]
  rintro ⟨hne, hgt⟩
  have := hq hne
  omega

lemma runEvents_bitEvents (l : List Bool) :
    ∀ (r : WiegandReader) (t d : Int),
      r.d0 ≠ r.d1 → d ≤ r.gap → (r.bits ≠ [] → t - r.last ≤ r.gap) →
      runEvents r (bitEvents r.d0 r.d1 l t d) =
        { r with bits := r.bits ++ l.map bitVal,
                 last := if l = [] then r.last else t + ((l.length : Int) - 1) * d } := by
  induction l with
  | nil =>
      intro r t d _ _ _
      simp [bitEvents, runEvents]
  | cons b rest ih =>
      intro r t d hpin hd hlast
      rw [bitEvents]
      rw [runEvents, runEvents, frame_watcher_step_of_quiet r t hlast]
      have hedge : r.on_edge (if b then r.d1 else r.d0) t
          = { r with bits := r.bits ++ [bitVal b], last := t } := by
        cases b
        · simp [WiegandReader.on_edge, bitVal]
        · simp [WiegandReader.on_edge, bitVal, if_neg (Ne.symm hpin)]
      rw [hedge]
      have ihok := ih { r with bits := r.bits ++ [bitVal b], last := t } (t + d) d
        hpin hd (by intro _; simp; omega)
      rw [ihok]
      rcases List.eq_nil_or_concat rest with hrest | _
      · subst hrest
        simp
      · have hne : rest ≠ [] := by
          rintro rfl
          simp_all
      -- combine the two structure updates
        simp only [List.append_assoc, List.singleton_append, List.map_cons]
        rw [if_neg hne, if_neg (by simp : (b :: rest : List Bool) ≠ [])]
        congr 1
        rw [List.length_cons]
        push_cast
        ring

lemma on_edge_frames (r : WiegandReader) (g : Nat) (now : Int) :
    (r.on_edge g now).frames = r.frames := by
  unfold WiegandReader.on_edge
  split_ifs <;> rfl

lemma on_edge_bits (r : WiegandReader) (g : Nat) (now : Int) :
    (r.on_edge g now).bits = r.bits ∨ (r.on_edge g now).bits = r.bits ++ [0]
      ∨ (r.on_edge g now).bits = r.bits ++ [1] := by
  unfold WiegandReader.on_edge
  split_ifs <;> simp

lemma frame_watcher_step_bits (r : WiegandReader) (now : Int) :
    (r.frame_watcher_step now).bits = r.bits ∨ (r.frame_watcher_step now).bits = [] := by
  unfold WiegandReader.frame_watcher_step
  split_ifs <;> simp

lemma frame_watcher_step_frames (r : WiegandReader) (now : Int) :
    (r.frame_watcher_step now).frames = r.frames
      ∨ ((r.frame_watcher_step now).frames = r.frames ++ [frameValue r.bits]
          ∧ r.bits.length = 32) := by
  unfold WiegandReader.frame_watcher_step
  split_ifs with h1
  · by_cases h2 : r.bits.length = 32
    · right
      simp [h2]
    · left
      simp [h2]
  · left
    rfl

/-- Explicit form of one watcher iteration when it finalizes: non-empty
accumulator and silence beyond the gap. -/
lemma frame_watcher_step_finalize (r : WiegandReader) (now : Int)
    (hne : r.bits ≠ []) (hgap : now - r.last > r.gap) :
    r.frame_watcher_step now =
      { r with bits := [],
               frames := if r.bits.length = 32 then r.frames ++ [frameValue r.bits]
                         else r.frames } := by
  unfold WiegandReader.frame_watcher_step
  rw [if_pos ⟨hne, hgap⟩]

/-- Reachability invariant of the reader: every accumulated bit is 0 or 1 and
every queued frame value fits in 32 bits. -/
lemma runEvents_bits_frames_bound (evs : List RxEvent) :
    ∀ r : WiegandReader, (∀ b ∈ r.bits, b ≤ 1) → (∀ x ∈ r.frames, x < 2 ^ 32) →
      (∀ b ∈ (runEvents r evs).bits, b ≤ 1)
        ∧ (∀ x ∈ (runEvents r evs).frames, x < 2 ^ 32) := by
  induction evs with
  | nil => intro r hb hf; exact ⟨hb, hf⟩
  | cons e rest ih =>
      intro r hb hf
      cases e with
      | edge g t =>
          rw [runEvents]
          apply ih
          · rcases on_edge_bits r g t with h | h | h <;> rw [h]
            · exact hb
            · intro b hb'
              rcases List.mem_append.1 hb' with h' | h'
              · exact hb b h'
              · simp at h'
                omega
            · intro b hb'
              rcases List.mem_append.1 hb' with h' | h'
              · exact hb b h'
              · simp at h'
                omega
          · rw [on_edge_frames]
            exact hf
      | poll t =>
          rw [runEvents]
          apply ih
          · rcases frame_watcher_step_bits r t with h | h <;> rw [h]
            · exact hb
            · simp
          · rcases frame_watcher_step_frames r t with h | ⟨h, hlen⟩ <;> rw [h]
            · exact hf
            · intro x hx
              rcases List.mem_append.1 hx with h' | h'
              · exact hf x h'
              · simp at h'
                subst h'
                have := frameValue_lt r.bits hb
                rw [hlen] at this
                exact this

lemma reader_start_h (r : WiegandReader) : ∃ k, (r.start.1).h = some k := by
  unfold WiegandReader.start
  cases hk : r.h <;> simp [hk]

lemma reader_start_of_some (r : WiegandReader) (k : Nat) (hk : r.h = some k) :
    r.start = (r, []) := by
  unfold WiegandReader.start
  rw [hk]

lemma tx_start_h (w : WiegandTx) : ∃ k, (w.start.1).h = some k := by
  unfold WiegandTx.start
  cases hk : w.h <;> simp [hk]

lemma tx_start_of_some (w : WiegandTx) (k : Nat) (hk : w.h = some k) :
    w.start = (w, []) := by
  unfold WiegandTx.start
  rw [hk]

/-! ## Claim theorems -/

/-- Claim C1, code-bug evidence.  The claim (and the function's own docstring,
"P_even over first 15 ... then P_odd over last 15") requires the leading parity
bit plus the first 15 data bits to contain an EVEN number of set bits and the
trailing parity bit plus the last 15 data bits an ODD number.  The code chooses
`p1 = '1'` exactly when the first half already has an even count and
`p2 = '1'` exactly when the second half has an odd count, so every transmitted
frame has an ODD count over the leading 16 bits and an EVEN count over the
trailing 16 bits — the inverse of the claim.  At value 0 the frame is a single
`1` followed by 31 zeros: leading-16 count 1 (odd, not even), trailing-16
count 0 (even, not odd). -/
theorem send_w32_parity_1_30_1_parity_inverted :
    (∀ v : Int, ((send_w32_parity_bits v).take 16).count true % 2 = 1
      ∧ ((send_w32_parity_bits v).drop 16).count true % 2 = 0
      ∧ (send_w32_parity_bits v).length = 32)
    ∧ send_w32_parity_bits 0 = true :: List.replicate 31 false := by
  constructor
  · intro v
    rw [send_w32_parity_bits]
    have h30 : (natBits 30 ((v : Int) % 2 ^ 30).toNat).length = 30 := natBits_length 30 _
    set data30 := natBits 30 ((v : Int) % 2 ^ 30).toNat with hdata
    refine ⟨?_, ?_, by simp [h30]⟩
    · rw [List.cons_append, List.take_succ_cons,
        List.take_append_of_le_length (by omega), List.count_cons]
      by_cases hc : (data30.take 15).count true % 2 = 1
      all_goals simp [hc]
      all_goals omega
    · rw [List.cons_append, List.drop_succ_cons,
        List.drop_append_of_le_length (by omega), List.count_append]
      by_cases hc : (data30.drop 15).count true % 2 = 1
      all_goals simp [hc]
      all_goals omega
  · decide

/-- Claim C3: when the frame watcher finalizes a non-empty accumulated bit
sequence (silence exceeding the gap), the frame is pushed onto the hand-off
queue if and only if the bit count is exactly 32; any other length leaves the
queue unchanged (silent discard, the step is total so no error is raised), and
the accumulator is cleared either way. -/
theorem frame_watcher_filter (r : WiegandReader) (now : Int)
    (hne : r.bits ≠ []) (hgap : now - r.last > r.gap) :
    ((r.frame_watcher_step now).frames = r.frames ++ [frameValue r.bits]
        ↔ r.bits.length = 32)
    ∧ (r.bits.length ≠ 32 → (r.frame_watcher_step now).frames = r.frames)
    ∧ (r.frame_watcher_step now).bits = [] := by
  rw [frame_watcher_step_finalize r now hne hgap]
  refine ⟨⟨?_, ?_⟩, ?_, rfl⟩
  · intro h
    by_contra hn
    rw [if_neg hn] at h
    simp at h
  · intro h
    rw [if_pos h]
  · intro h
    rw [if_neg h]

/-- Witness for C3 at concrete inputs: a 26-bit and a 34-bit burst produce no
frame, a 32-bit burst produces exactly its value. -/
theorem frame_watcher_filter_witness :
    ((WiegandReader.mk 0 17 27 30 none false false (List.replicate 26 1) 0 []).frame_watcher_step 100).frames = []
    ∧ ((WiegandReader.mk 0 17 27 30 none false false (List.replicate 34 1) 0 []).frame_watcher_step 100).frames = []
    ∧ ((WiegandReader.mk 0 17 27 30 none false false (List.replicate 32 1) 0 []).frame_watcher_step 100).frames
        = [frameValue (List.replicate 32 1)] := by
  refine ⟨?_, ?_, ?_⟩
  · have h := (frame_watcher_filter
      (WiegandReader.mk 0 17 27 30 none false false (List.replicate 26 1) 0 [])
      100 (by decide) (by decide)).2.1 (by decide)
    simpa using h
  · have h := (frame_watcher_filter
      (WiegandReader.mk 0 17 27 30 none false false (List.replicate 34 1) 0 [])
      100 (by decide) (by decide)).2.1 (by decide)
    simpa using h
  · have h := (frame_watcher_filter
      (WiegandReader.mk 0 17 27 30 none false false (List.replicate 32 1) 0 [])
      100 (by decide) (by decide)).1.mpr (by decide)
    simpa using h

/-- Claim C4: on an initialized reader (any state whose queued frames are
32-bit values, as every reachable state is by
`runEvents_bits_frames_bound`), `get_card_id` returns `ok` — never an
exception — and the payload is the next available frame's 32-bit value, or
`none` exactly when no frame is available at timeout. -/
theorem get_card_id_initialized (r : WiegandReader) (timeout : Option Int)
    (hwf : ∀ x ∈ r.frames, x < 2 ^ 32) :
    get_card_id (some r) timeout = Except.ok (r.get_32bit timeout)
    ∧ ((r.get_32bit timeout).1 = none ↔ r.frames = [])
    ∧ (∀ x, (r.get_32bit timeout).1 = some x →
        x < 2 ^ 32 ∧ r.frames.head? = some x) := by
  refine ⟨rfl, ?_, ?_⟩
  · unfold WiegandReader.get_32bit
    cases hf : r.frames <;> cases timeout <;> simp [hf]
  · intro x hx
    cases hf : r.frames with
    | nil =>
        unfold WiegandReader.get_32bit at hx
        rw [hf] at hx
        cases timeout <;> simp at hx
    | cons f rest =>
        unfold WiegandReader.get_32bit at hx
        rw [hf] at hx
        have hxf : f = x := by cases timeout <;> simpa using hx
        subst hxf
        exact ⟨hwf f (by rw [hf]; simp), rfl⟩

/-- Witness for C4 at a concrete state with one queued frame. -/
theorem get_card_id_initialized_witness :
    get_card_id (some (WiegandReader.mk 0 17 27 30 none false false [] 0 [5])) none
      = Except.ok ((WiegandReader.mk 0 17 27 30 none false false [] 0 [5]).get_32bit none)
    ∧ (5 : Nat) < 2 ^ 32
    ∧ (WiegandReader.mk 0 17 27 30 none false false [] 0 [5]).frames.head? = some 5 := by
  have h := get_card_id_initialized
    (WiegandReader.mk 0 17 27 30 none false false [] 0 [5]) none (by decide)
  exact ⟨h.1, h.2.2 5 (by decide)⟩

/-- Claim C5: calling `get_card_id` with no reader instance, or `send_w32` /
`send_w32_parity_1_30_1` with no transmitter instance, yields the hard
not-initialized error (a `RuntimeError`, modelled as `Except.error`) — never a
silent no-op and never the absent (`none`) result. -/
theorem not_initialized_raises :
    (∀ timeout, get_card_id none timeout
        = Except.error "Card reader not initialized. Call initialize_card_reader() first.")
    ∧ (∀ v, send_w32 none v = Except.error "initialize_wiegand_tx() first.")
    ∧ (∀ v, send_w32_parity_1_30_1 none v
        = Except.error "initialize_wiegand_tx() first.") :=
  ⟨fun _ => rfl, fun _ => rfl, fun _ => rfl⟩

/-- Claim C7 counterexample: finalization does not reset the last-activity
timestamp to any "no activity" state.  Two states that differ only in their
last-activity timestamp (5 vs 7) both finalize at time 100, yet each keeps its
own old timestamp afterwards — so the timestamp is left untouched, not reset
to a common no-activity value (no such sentinel even exists in the code). -/
theorem frame_watcher_last_not_reset :
    ((WiegandReader.mk 0 17 27 30 none false false [1] 5 []).frame_watcher_step 100).last = 5
    ∧ ((WiegandReader.mk 0 17 27 30 none false false [1] 7 []).frame_watcher_step 100).last = 7
    ∧ ((WiegandReader.mk 0 17 27 30 none false false [1] 5 []).frame_watcher_step 100).last
        ≠ ((WiegandReader.mk 0 17 27 30 none false false [1] 7 []).frame_watcher_step 100).last := by
  decide

/-- Claim C7 (amended): a finalization step of the frame watcher clears the bit
sequence to empty, pushes the value (only when the count is exactly 32), and
modifies nothing else — in particular the last-activity timestamp is left
unchanged rather than reset. -/
theorem frame_watcher_finalize_effect (r : WiegandReader) (now : Int)
    (hne : r.bits ≠ []) (hgap : now - r.last > r.gap) :
    r.frame_watcher_step now =
      { r with bits := [],
               frames := if r.bits.length = 32 then r.frames ++ [frameValue r.bits]
                         else r.frames }
    ∧ (r.frame_watcher_step now).last = r.last :=
  ⟨frame_watcher_step_finalize r now hne hgap, by
    rw [frame_watcher_step_finalize r now hne hgap]⟩

/-- Witness for C7's amended statement at a concrete state. -/
theorem frame_watcher_finalize_effect_witness :
    ((WiegandReader.mk 0 17 27 30 none false false [1, 0, 1] 5 []).frame_watcher_step 100).last = 5
    ∧ ((WiegandReader.mk 0 17 27 30 none false false [1, 0, 1] 5 []).frame_watcher_step 100).bits = [] := by
  have h := frame_watcher_finalize_effect
    (WiegandReader.mk 0 17 27 30 none false false [1, 0, 1] 5 []) 100 (by decide) (by decide)
  rw [h.1]
  exact ⟨rfl, rfl⟩

/-- Claim C8: both `initialize_*` operations are idempotent — immediately
re-initializing (with any parameters) returns the same state with an empty
effect list, so the GPIO resource is not re-claimed and no error occurs — and
both shutdown operations are idempotent and safe when never started. -/
theorem lifecycle_idempotent :
    (∀ c1 a1 b1 g1 t1 c2 a2 b2 g2 t2 (inst : Option WiegandReader),
        initialize_card_reader c2 a2 b2 g2 t2 (initialize_card_reader c1 a1 b1 g1 t1 inst).1
          = ((initialize_card_reader c1 a1 b1 g1 t1 inst).1, []))
    ∧ (∀ c1 a1 b1 l1 s1 p1 c2 a2 b2 l2 s2 p2 (inst : Option WiegandTx),
        initialize_wiegand_tx c2 a2 b2 l2 s2 p2 (initialize_wiegand_tx c1 a1 b1 l1 s1 p1 inst).1
          = ((initialize_wiegand_tx c1 a1 b1 l1 s1 p1 inst).1, []))
    ∧ disconnect_card_reader none = (none, [])
    ∧ (∀ inst, disconnect_card_reader (disconnect_card_reader inst).1 = (none, []))
    ∧ close_wiegand_tx none = (none, [])
    ∧ (∀ inst, close_wiegand_tx (close_wiegand_tx inst).1 = (none, [])) := by
  refine ⟨?_, ?_, rfl, ?_, rfl, ?_⟩
  · intro c1 a1 b1 g1 t1 c2 a2 b2 g2 t2 inst
    obtain ⟨k, hk⟩ := reader_start_h (inst.getD (WiegandReader.init c1 a1 b1 g1 t1))
    unfold initialize_card_reader
    simp [reader_start_of_some _ _ hk]
  · intro c1 a1 b1 l1 s1 p1 c2 a2 b2 l2 s2 p2 inst
    obtain ⟨k, hk⟩ := tx_start_h (inst.getD (WiegandTx.init c1 a1 b1 l1 s1 p1))
    unfold initialize_wiegand_tx
    simp [tx_start_of_some _ _ hk]
  · intro inst
    cases inst <;> rfl
  · intro inst
    cases inst <;> rfl

/-- Claim C9 counterexample: the reader's gap timeout is not validated or
clamped to any positive safe minimum — the constructor stores it verbatim, so
a gap of 0 (or any value) is accepted unchanged. -/
theorem reader_gap_not_clamped :
    (WiegandReader.init 0 17 27 0 0).gap = 0
    ∧ ¬ ∃ m : Int, 0 < m ∧ ∀ g : Int, m ≤ (WiegandReader.init 0 17 27 g 0).gap := by
  refine ⟨rfl, ?_⟩
  rintro ⟨m, hm, hall⟩
  have h0 := hall 0
  simp [WiegandReader.init] at h0
  omega

/-- Claim C9 (amended): the writer's timing values are clamped to safe
minimums at construction (active-pulse width ≥ 20 µs, inter-bit spacing
≥ 200 µs); the reader's gap timeout is stored exactly as supplied, without
validation or clamping. -/
theorem timing_validation (chip d0_pin d1_pin : Nat) (t_low t_space : Int)
    (ah : Bool) (gap t0 : Int) :
    20 ≤ (WiegandTx.init chip d0_pin d1_pin t_low t_space ah).t_low_us
    ∧ 200 ≤ (WiegandTx.init chip d0_pin d1_pin t_low t_space ah).t_space_us
    ∧ (WiegandReader.init chip d0_pin d1_pin gap t0).gap = gap := by
  refine ⟨?_, ?_, rfl⟩ <;> simp [WiegandTx.init]

/-- Claim C10: re-initializing while an instance already exists ignores the
new parameters entirely: the existing instance is started (a no-op when
already started) and every configuration field keeps the value from the first
initialization. -/
theorem reinitialize_ignores_params :
    (∀ (r : WiegandReader) c2 a2 b2 g2 t2,
        initialize_card_reader c2 a2 b2 g2 t2 (some r) = (some r.start.1, r.start.2)
        ∧ (r.start.1).chip_index = r.chip_index ∧ (r.start.1).d0 = r.d0
        ∧ (r.start.1).d1 = r.d1 ∧ (r.start.1).gap = r.gap)
    ∧ (∀ (w : WiegandTx) c2 a2 b2 l2 s2 p2,
        initialize_wiegand_tx c2 a2 b2 l2 s2 p2 (some w) = (some w.start.1, w.start.2)
        ∧ (w.start.1).chip = w.chip ∧ (w.start.1).d0 = w.d0 ∧ (w.start.1).d1 = w.d1
        ∧ (w.start.1).t_low_us = w.t_low_us ∧ (w.start.1).t_space_us = w.t_space_us
        ∧ (w.start.1).active_high = w.active_high) := by
  constructor
  · intro r c2 a2 b2 g2 t2
    refine ⟨rfl, ?_, ?_, ?_, ?_⟩
    all_goals unfold WiegandReader.start
    all_goals cases hk : r.h <;> simp [hk]
  · intro w c2 a2 b2 l2 s2 p2
    refine ⟨rfl, ?_, ?_, ?_, ?_, ?_, ?_⟩
    all_goals unfold WiegandTx.start
    all_goals cases hk : w.h <;> simp [hk]

/-- Claim C6: for every integer value, `send_w32` emits exactly 32 bit pulses
(128 primitive actions, 4 per bit), one per bit of the low 32 bits of the
value, most-significant bit first; each bit pulses exactly one rail — D1 for a
1 bit, D0 for a 0 bit — active for the pulse width then idle for the spacing,
with polarity resolved by the active-high flag; higher bits of the input are
masked off silently. -/
theorem send_w32_pulse_structure (w : WiegandTx) (v : Int) :
    w.send_w32 v = ((send_w32_bits v).map w.pulse_bit).flatten
    ∧ (send_w32_bits v).length = 32
    ∧ (w.send_w32 v).length = 128
    ∧ (∀ b, w.pulse_bit b =
        [TxAction.write (if b then w.d1 else w.d0) (driveVal w.active_high true),
         TxAction.sleep w.t_low_us,
         TxAction.write (if b then w.d1 else w.d0) (idleVal w.active_high),
         TxAction.sleep w.t_space_us])
    ∧ (∀ i : Fin 32, (send_w32_bits v).getD i.val false
        = (v % 2 ^ 32).toNat.testBit (31 - i.val))
    ∧ w.send_w32 v = w.send_w32 (v % 2 ^ 32) := by
  have hlen : (send_w32_bits v).length = 32 := natBits_length 32 _
  refine ⟨rfl, hlen, ?_, fun b => rfl, ?_, ?_⟩
  · show (((send_w32_bits v).map w.pulse_bit).flatten).length = 128
    rw [List.length_flatten, List.map_map]
    have hconst : (List.length ∘ w.pulse_bit) = fun _ => 4 := by
      funext b
      rfl
    rw [hconst, List.map_const', List.sum_replicate, hlen]
    rfl
  · intro i
    have h := natBits_getD 32 (v % 2 ^ 32).toNat i.val i.isLt
    have h31 : 32 - 1 - i.val = 31 - i.val := by omega
    rw [h31] at h
    exact h
  · show w.send_bits_msb_first (send_w32_bits v)
      = w.send_bits_msb_first (send_w32_bits (v % 2 ^ 32))
    have hmask : send_w32_bits (v % 2 ^ 32) = send_w32_bits v := by
      unfold send_w32_bits
      rw [Int.emod_emod_of_dvd _ dvd_rfl]
    rw [hmask]

/-- Field form of a finalizing watcher iteration. -/
lemma frame_watcher_step_fields (r : WiegandReader) (now : Int)
    (hne : r.bits ≠ []) (hgap : now - r.last > r.gap) :
    (r.frame_watcher_step now).bits = []
    ∧ (r.frame_watcher_step now).frames
        = (if r.bits.length = 32 then r.frames ++ [frameValue r.bits] else r.frames) := by
  rw [frame_watcher_step_finalize r now hne hgap]
  exact ⟨rfl, rfl⟩

/-- A single watcher poll after sufficient silence finalizes a 32-bit
accumulator into one queued frame. -/
lemma poll_finalizes_32 (s : WiegandReader) (T : Int)
    (hne : s.bits ≠ []) (hgap : T - s.last > s.gap) (h32 : s.bits.length = 32) :
    (runEvents s [RxEvent.poll T]).frames = s.frames ++ [frameValue s.bits]
    ∧ (runEvents s [RxEvent.poll T]).bits = [] := by
  have hrun : runEvents s [RxEvent.poll T] = s.frame_watcher_step T := rfl
  obtain ⟨hb, hf⟩ := frame_watcher_step_fields s T hne hgap
  rw [hrun, hb, hf, if_pos h32]
  exact ⟨rfl, rfl⟩

/-- Claim C2: feeding the pulse encoder's bit sequence for a 32-bit value `v`
('1' bits as D1 edges, '0' bits as D0 edges, MSB first) through the edge
capture logic — with every inter-bit gap `d` shorter than the gap timeout, the
watcher polling once per bit period, and a final poll after a silence longer
than the gap timeout — finalizes exactly one frame, whose value is `v`. -/
theorem wiegand_roundtrip_32 (chip d0_pin d1_pin : Nat) (gap t0 d T : Int) (v : Nat)
    (hpins : d0_pin ≠ d1_pin) (hv : v < 2 ^ 32)
    (hd0 : 0 ≤ d) (hd : d < gap) (hT : T - (t0 + 31 * d) > gap) :
    (runEvents (WiegandReader.init chip d0_pin d1_pin gap t0)
        (bitEvents d0_pin d1_pin (send_w32_bits (v : Int)) t0 d
          ++ [RxEvent.poll T])).frames = [v]
    ∧ (runEvents (WiegandReader.init chip d0_pin d1_pin gap t0)
        (bitEvents d0_pin d1_pin (send_w32_bits (v : Int)) t0 d
          ++ [RxEvent.poll T])).bits = [] := by
  have hbits : send_w32_bits (v : Int) = natBits 32 v := send_w32_bits_natCast v hv
  have hlen : (send_w32_bits (v : Int)).length = 32 := by
    rw [hbits, natBits_length]
  have hne : send_w32_bits (v : Int) ≠ [] := by
    intro h
    rw [h] at hlen
    simp at hlen
  have h1 := runEvents_bitEvents (send_w32_bits (v : Int))
    (WiegandReader.init chip d0_pin d1_pin gap t0) t0 d
    (by simpa [WiegandReader.init] using hpins)
    (by simp only [WiegandReader.init]; omega)
    (by simp [WiegandReader.init])
  have hpins' : (WiegandReader.init chip d0_pin d1_pin gap t0).d0 = d0_pin := rfl
  have hpins'' : (WiegandReader.init chip d0_pin d1_pin gap t0).d1 = d1_pin := rfl
  rw [hpins', hpins''] at h1
  have h2 : runEvents (WiegandReader.init chip d0_pin d1_pin gap t0)
      (bitEvents d0_pin d1_pin (send_w32_bits (v : Int)) t0 d)
      = { chip_index := chip, d0 := d0_pin, d1 := d1_pin, gap := gap, h := none,
          cb0 := false, cb1 := false,
          bits := (send_w32_bits (v : Int)).map bitVal,
          last := t0 + 31 * d, frames := [] } := by
    rw [h1, if_neg hne]
    simp [WiegandReader.init, hlen]
  rw [runEvents_append, h2]
  have hval : frameValue ((send_w32_bits (v : Int)).map bitVal) = v := by
    rw [hbits]
    exact frameValue_natBits 32 v hv
  obtain ⟨hfr, hbi⟩ := poll_finalizes_32
    { chip_index := chip, d0 := d0_pin, d1 := d1_pin, gap := gap, h := none,
      cb0 := false, cb1 := false,
      bits := (send_w32_bits (v : Int)).map bitVal,
      last := t0 + 31 * d, frames := [] } T
    (by simpa using hne) (by simpa using hT) (by simpa using hlen)
  refine ⟨?_, hbi⟩
  rw [hfr]
  simp [hval]

/-- Witness for C2: the value 3 round-trips through the simulated wire with
gap timeout 30, inter-bit spacing 1 and a final poll at time 100. -/
theorem wiegand_roundtrip_32_witness :
    (runEvents (WiegandReader.init 0 17 27 30 0)
        (bitEvents 17 27 (send_w32_bits ((3 : Nat) : Int)) 0 1
          ++ [RxEvent.poll 100])).frames = [3] :=
  (wiegand_roundtrip_32 0 17 27 30 0 1 100 3 (by decide) (by decide)
    (by decide) (by decide) (by decide)).1
